import Mathlib

/-!
# Verification of the data-processing pipeline of Stock_Market_Predictor

This file gives a shallow embedding of `data_process.py` and proves (or
refutes) the stated properties of its splitting, windowing and
augmentation functions.

Modelling conventions:

* A price series is a list of rows; the row type is an arbitrary `α`
  (each row is one day of `M` features; the claims never look inside a
  row, only at which rows appear where).
* Date strings `'YYYY-mm-dd'` are parsed by `datetime.strptime`, which is
  an order embedding from valid date strings into a linear order; the code
  only ever compares parsed dates, so dates are modelled as `Int`.
* Python slicing `l[a:b]` with possibly-negative `a`, `b` (the code uses
  the sentinel `-1` for "index not found") is modelled by `pyResolve` /
  `pySlice`, which implement CPython's slice-index resolution.
* Python's truncated `len // 10` is Lean's `Nat` division; `math.floor`
  on an exact proportion is `Int.floor` on `ℚ`.
* The global `random` generator is modelled by explicit state passing
  over an abstract state type, with `random.seed` a function of the seed
  only and `random.randint` / `random.shuffle` abstract functions of the
  state.
-/

namespace StockPredictor

/-- CPython slice-index resolution for a list of length `n`: a negative
index counts from the end (clamped below at `0`), a non-negative index is
clamped above at `n`. -/
def pyResolve (n : Nat) (i : Int) : Nat :=
  if i < 0 then (n + i).toNat else min i.toNat n

/-- Python's `l[a:b]` (start and stop both given, step 1). -/
def pySlice (l : List α) (a b : Int) : List α :=
  (l.take (pyResolve l.length b)).drop (pyResolve l.length a)

/-- Python's `l[a:]` (stop omitted). -/
def pySliceFrom (l : List α) (a : Int) : List α :=
  l.drop (pyResolve l.length a)

/-- Whether row index `j` of an array of `n` rows falls inside the Python
slice `[a:b]`. -/
def inPySlice (n : Nat) (a b : Int) (j : Nat) : Prop :=
  pyResolve n a ≤ j ∧ j < pyResolve n b ∧ j < n

instance (n : Nat) (a b : Int) (j : Nat) : Decidable (inPySlice n a b j) := by
  unfold inPySlice; infer_instance

/-- Whether row index `j` falls inside the Python slice `[a:]`. -/
def inPySliceFrom (n : Nat) (a : Int) (j : Nat) : Prop :=
  pyResolve n a ≤ j ∧ j < n

instance (n : Nat) (a : Int) (j : Nat) : Decidable (inPySliceFrom n a j) := by
  unfold inPySliceFrom; infer_instance

/-- `make_x_t_tuple_tensor_pairs_in_place` from `data_process.py`: for
`i in range(N - input_length - output_length)` it pairs
`x = data[i : i+input_length]` with `t = data[i+input_length :
i+input_length+output_length]`.  Rows are kept whole; converting a slice
to a `torch.tensor` does not change which rows it holds. -/
def make_x_t_tuple_tensor_pairs_in_place (data : List α)
    (input_length output_length : Nat) : List (List α × List α) :=
  (List.range (data.length - input_length - output_length)).map fun i =>
    ((data.drop i).take input_length,
     (data.drop (i + input_length)).take output_length)

theorem mem_make_x_t_iff (data : List α) (il ol : Nat) (p : List α × List α) :
    p ∈ make_x_t_tuple_tensor_pairs_in_place data il ol ↔
      ∃ i, i < data.length - il - ol ∧
        p = ((data.drop i).take il, (data.drop (i + il)).take ol) := by
  simp only [make_x_t_tuple_tensor_pairs_in_place, List.mem_map,
    List.mem_range]
  constructor
  · rintro ⟨i, hi, rfl⟩; exact ⟨i, hi, rfl⟩
  · rintro ⟨i, hi, rfl⟩; exact ⟨i, hi, rfl⟩

/-- C4: every produced pair has `x` of exactly `input_length` rows and
`t` of exactly `output_length` rows, and `t` starts immediately after the
last row of `x`. -/
theorem make_x_t_shapes (data : List α) (il ol : Nat)
    (hil : 0 < il) (hol : 0 < ol) (p : List α × List α)
    (hp : p ∈ make_x_t_tuple_tensor_pairs_in_place data il ol) :
    p.1.length = il ∧ p.2.length = ol ∧
      ∃ i, p.1 = (data.drop i).take il ∧
        p.2 = (data.drop (i + il)).take ol := by
  rcases (mem_make_x_t_iff data il ol p).1 hp with ⟨i, hi, rfl⟩
  refine ⟨?_, ?_, i, rfl, rfl⟩
  · simp only [List.length_take, List.length_drop]
    omega
  · simp only [List.length_take, List.length_drop]
    omega

/-- C8: the number of produced pairs is `max 0 (N - il - ol)`; in
particular none are produced when `N ≤ il + ol`, even when exactly one
full window would fit. -/
theorem make_x_t_count (data : List α) (il ol : Nat) :
    (make_x_t_tuple_tensor_pairs_in_place data il ol).length
        = data.length - il - ol ∧
      ((make_x_t_tuple_tensor_pairs_in_place data il ol).length : Int)
        = max 0 ((data.length : Int) - il - ol) ∧
      (data.length ≤ il + ol →
        make_x_t_tuple_tensor_pairs_in_place data il ol = []) := by
  refine ⟨?_, ?_, ?_⟩
  · simp [make_x_t_tuple_tensor_pairs_in_place]
  · simp only [make_x_t_tuple_tensor_pairs_in_place, List.length_map,
      List.length_range]
    omega
  · intro h
    simp only [make_x_t_tuple_tensor_pairs_in_place]
    have : data.length - il - ol = 0 := by omega
    simp [this]

theorem make_x_t_count_witness :
    (make_x_t_tuple_tensor_pairs_in_place ([1, 2, 3] : List Int) 2 1).length
        = ([1, 2, 3] : List Int).length - 2 - 1 ∧
      ((make_x_t_tuple_tensor_pairs_in_place ([1, 2, 3] : List Int)
          2 1).length : Int)
        = max 0 ((([1, 2, 3] : List Int).length : Int) - 2 - 1) ∧
      (([1, 2, 3] : List Int).length ≤ 2 + 1 →
        make_x_t_tuple_tensor_pairs_in_place ([1, 2, 3] : List Int) 2 1
          = []) :=
  make_x_t_count [1, 2, 3] 2 1

theorem make_x_t_shapes_witness :
    (([(1 : Int)], [(2 : Int)]) : List Int × List Int).1.length = 1 ∧
      (([(1 : Int)], [(2 : Int)]) : List Int × List Int).2.length = 1 ∧
      ∃ i, (([(1 : Int)], [(2 : Int)]) : List Int × List Int).1
              = (([1, 2, 3, 4] : List Int).drop i).take 1 ∧
           (([(1 : Int)], [(2 : Int)]) : List Int × List Int).2
              = (([1, 2, 3, 4] : List Int).drop (i + 1)).take 1 :=
  make_x_t_shapes [1, 2, 3, 4] 1 1 (by decide) (by decide)
    ([(1 : Int)], [(2 : Int)]) (by decide)

/-! ## The two-boundary linear scan of `get_data_within_date_range` -/

/-- The pair of indexes the scan of `get_data_within_date_range`
maintains, `-1` meaning "not found yet". -/
structure RangeIdx where
  start_index : Int
  end_index : Int
deriving Repr, DecidableEq

/-- One iteration of the scan loop of `get_data_within_date_range`
(source lines 261-268): the `if date_i >= start_date ... elif
date_i >= end_date ...` chain at row `i` holding date `d`. -/
def range_step (start_date end_date : Int) (r : RangeIdx) (i : Nat)
    (d : Int) : RangeIdx :=
  if start_date ≤ d ∧ r.start_index = -1 then
    { r with start_index := (i : Int) }
  else if end_date ≤ d ∧ r.end_index = -1 then
    { r with end_index := (i : Int) }
  else r

/-- The scan loop `for i in range(N)` of `get_data_within_date_range`,
processing the dates from row `i` on. -/
def range_scan (start_date end_date : Int) :
    RangeIdx → Nat → List Int → RangeIdx
  | r, _, [] => r
  | r, i, d :: ds =>
      range_scan start_date end_date (range_step start_date end_date r i d)
        (i + 1) ds

/-- The indexes `get_data_within_date_range` computes for a date column,
both initialised to `-1`. -/
def find_range_indexes (start_date end_date : Int) (dates : List Int) :
    RangeIdx :=
  range_scan start_date end_date ⟨-1, -1⟩ 0 dates

/-- The rows `get_data_within_date_range` selects:
`data[start_index:end_index]` with Python slicing. -/
def data_in_range (dates : List Int) (data : List α)
    (start_date end_date : Int) : List α :=
  let r := find_range_indexes start_date end_date dates
  pySlice data r.start_index r.end_index

/-- `get_data_within_date_range` from `data_process.py`: window the rows
selected by the date scan. -/
def get_data_within_date_range (dates : List Int) (data : List α)
    (x_length t_length : Nat) (start_date end_date : Int) :
    List (List α × List α) :=
  make_x_t_tuple_tensor_pairs_in_place
    (data_in_range dates data start_date end_date) x_length t_length

/-- Invariant of the two-boundary scan after processing rows `0..i-1` of
a date column read through `D`. -/
structure RangeInv (start_date end_date : Int) (D : Nat → Int) (i : Nat)
    (r : RangeIdx) : Prop where
  start_range : r.start_index = -1 ∨
    (0 ≤ r.start_index ∧ r.start_index < (i : Int))
  end_range : r.end_index = -1 ∨ (0 ≤ r.end_index ∧ r.end_index < (i : Int))
  chain : r.end_index ≠ -1 →
    r.start_index ≠ -1 ∧ r.start_index < r.end_index
  start_ge : r.start_index ≠ -1 → start_date ≤ D r.start_index.toNat
  start_least : ∀ j : Nat, (j : Int) < r.start_index → D j < start_date
  start_pending : r.start_index = -1 → ∀ j : Nat, j < i → D j < start_date
  end_ge : r.end_index ≠ -1 → end_date ≤ D r.end_index.toNat
  end_least : r.end_index ≠ -1 → ∀ j : Nat,
    r.start_index < (j : Int) → (j : Int) < r.end_index → D j < end_date
  end_pending : r.start_index ≠ -1 → r.end_index = -1 → ∀ j : Nat,
    r.start_index < (j : Int) → j < i → D j < end_date

theorem range_step_inv (start_date end_date : Int) (D : Nat → Int)
    (i : Nat) (r : RangeIdx) (hinv : RangeInv start_date end_date D i r)
    (hse : start_date ≤ end_date) :
    RangeInv start_date end_date D (i + 1) (range_step start_date end_date r i (D i)) := by
  obtain ⟨h1, h2, h3, h4, h5, h6, h7, h8, h9⟩ := hinv
  unfold range_step
  split_ifs with ha hb
  · -- start_index gets set to i
    obtain ⟨had, hai⟩ := ha
    refine ⟨?_, ?_, ?_, ?_, ?_, ?_, ?_, ?_, ?_⟩ <;> simp only []
    · right; constructor <;> omega
    · rcases h2 with h | h
      · left; exact h
      · right; omega
    · intro he
      rcases h3 he with ⟨hne, _⟩
      exact absurd hai hne
    · intro _
      simpa using had
    · intro j hj
      have hji : j < i := by omega
      exact h6 hai j hji
    · intro h; simp at h
    · exact h7
    · intro he j hj1 hj2
      rcases h3 he with ⟨hne, _⟩
      exact absurd hai hne
    · intro _ he j hj1 hj2
      have : (i : Int) < (j : Int) := hj1
      omega
  · -- end_index gets set to i
    obtain ⟨hbd, hbi⟩ := hb
    push_neg at ha
    have hsne : r.start_index ≠ -1 := by
      intro h
      exact absurd (ha (le_trans hse hbd)) (by simp [h])
    refine ⟨?_, ?_, ?_, ?_, ?_, ?_, ?_, ?_, ?_⟩ <;> simp only []
    · rcases h1 with h | h
      · exact absurd h hsne
      · right; omega
    · right
      rcases h1 with h | h
      · exact absurd h hsne
      · omega
    · intro _
      rcases h1 with h | h
      · exact absurd h hsne
      · exact ⟨hsne, by omega⟩
    · exact h4
    · exact h5
    · intro h; exact absurd h hsne
    · intro _
      simpa using hbd
    · intro _ j hj1 hj2
      have hji : j < i := by omega
      exact h9 hsne hbi j hj1 hji
    · intro _ h; simp at h
  · -- nothing fires
    push_neg at ha
    push_neg at hb
    refine ⟨?_, ?_, h3, h4, h5, ?_, h7, h8, ?_⟩
    · rcases h1 with h | h
      · left; exact h
      · right; omega
    · rcases h2 with h | h
      · left; exact h
      · right; omega
    · intro hs j hj
      rcases Nat.lt_succ_iff_lt_or_eq.1 hj with h | rfl
      · exact h6 hs j h
      · by_contra hge
        push_neg at hge
        exact absurd (ha hge) (by simp [hs])
    · intro hs he j hj1 hj2
      rcases Nat.lt_succ_iff_lt_or_eq.1 hj2 with h | rfl
      · exact h9 hs he j hj1 h
      · by_contra hge
        push_neg at hge
        exact absurd (hb hge) (by simp [he])

theorem range_scan_inv (sd ed : Int) (hse : sd ≤ ed) (D : Nat → Int) :
    ∀ (ds : List Int) (i : Nat) (r : RangeIdx),
      RangeInv sd ed D i r →
      (∀ k, k < ds.length → ds.getD k 0 = D (i + k)) →
      RangeInv sd ed D (i + ds.length) (range_scan sd ed r i ds)
  | [], i, r, hinv, _ => by simpa using hinv
  | d :: ds, i, r, hinv, hD => by
      have hd : d = D i := by
        have h0 := hD 0 (by simp)
        simpa using h0
      have hstep := range_step_inv sd ed D i r hinv hse
      rw [← hd] at hstep
      have hrec := range_scan_inv sd ed hse D ds (i + 1)
        (range_step sd ed r i d) hstep
        (fun k hk => by
          have := hD (k + 1) (by simpa using Nat.succ_lt_succ hk)
          simpa [Nat.add_assoc, Nat.add_comm 1 k] using this)
      have hlen : i + (d :: ds).length = (i + 1) + ds.length := by
        simp [Nat.add_comm, Nat.add_assoc, Nat.add_left_comm]
      rw [hlen]
      exact hrec

/-- Non-decreasing calendar order of a date column. -/
def DatesSorted (dates : List Int) : Prop :=
  dates.Pairwise (· ≤ ·)

instance (dates : List Int) : Decidable (DatesSorted dates) := by
  unfold DatesSorted; infer_instance

theorem DatesSorted.getD_le {dates : List Int} (h : DatesSorted dates)
    {i j : Nat} (hij : i ≤ j) (hj : j < dates.length) :
    dates.getD i 0 ≤ dates.getD j 0 := by
  rcases Nat.lt_or_ge i j with hlt | hge
  · have hi : i < dates.length := lt_trans hlt hj
    rw [List.getD_eq_getElem _ _ hi, List.getD_eq_getElem _ _ hj]
    simpa using List.pairwise_iff_get.1 h ⟨i, hi⟩ ⟨j, hj⟩ hlt
  · have : i = j := le_antisymm hij hge
    rw [this]

theorem find_range_indexes_inv (sd ed : Int) (hse : sd ≤ ed)
    (dates : List Int) :
    RangeInv sd ed (fun j => dates.getD j 0) dates.length
      (find_range_indexes sd ed dates) := by
  have hinit : RangeInv sd ed (fun j => dates.getD j 0) 0 ⟨-1, -1⟩ := by
    refine ⟨Or.inl rfl, Or.inl rfl, ?_, ?_, ?_, ?_, ?_, ?_, ?_⟩
    · intro h; exact absurd rfl h
    · intro h; exact absurd rfl h
    · intro j hj; simp only [] at hj; omega
    · intro _ j hj; omega
    · intro h; exact absurd rfl h
    · intro h; exact absurd rfl h
    · intro h; exact absurd rfl h
  have := range_scan_inv sd ed hse (fun j => dates.getD j 0) dates 0
    ⟨-1, -1⟩ hinit (fun k _ => by simp)
  simpa [find_range_indexes] using this

/-- Modelled from the spec's words for C2 only, to compare with the
code's selection: the rows whose dates satisfy
`start_date <= date < end_date`. -/
def rows_in_range_spec (dates : List Int) (data : List α)
    (sd ed : Int) : List α :=
  ((dates.zip data).filter fun p => decide (sd ≤ p.1) && decide (p.1 < ed)).map
    Prod.snd

theorem data_in_range_equal_dates_cex :
    DatesSorted [0, 1] ∧ (0 : Int) ≤ 0 ∧
      (∃ j, j < 2 ∧ (0 : Int) ≤ ([0, 1] : List Int).getD j 0) ∧
      data_in_range [0, 1] [(10 : Int), 20] 0 0 = [10] ∧
      rows_in_range_spec [0, 1] [(10 : Int), 20] 0 0 = [] ∧
      data_in_range [0, 1] [(10 : Int), 20] 0 0
        ≠ rows_in_range_spec [0, 1] [(10 : Int), 20] 0 0 := by
  refine ⟨by decide, by decide, ⟨0, by decide⟩, by decide, by decide, by decide⟩

set_option linter.unusedVariables false in
/-- C2 (amended): under the claim's hypotheses, `start_index` is the
least index whose date is `>= start_date`, but `end_index` is the least
index STRICTLY AFTER `start_index` whose date is `>= end_date` (`-1`
when there is none, in which case Python's `data[start_index:-1]` also
drops the final row); the selected rows are `data[start_index:end_index]`
under Python slicing. -/
theorem data_in_range_boundaries (dates : List Int) (data : List α)
    (sd ed : Int) (hsort : DatesSorted dates) (hse : sd ≤ ed)
    (hex : ∃ j, j < dates.length ∧ sd ≤ dates.getD j 0) :
    0 ≤ (find_range_indexes sd ed dates).start_index ∧
      (find_range_indexes sd ed dates).start_index < (dates.length : Int) ∧
      sd ≤ dates.getD (find_range_indexes sd ed dates).start_index.toNat 0 ∧
      (∀ j : Nat, (j : Int) < (find_range_indexes sd ed dates).start_index →
        dates.getD j 0 < sd) ∧
      ((find_range_indexes sd ed dates).end_index ≠ -1 →
        (find_range_indexes sd ed dates).start_index
            < (find_range_indexes sd ed dates).end_index ∧
          (find_range_indexes sd ed dates).end_index < (dates.length : Int) ∧
          ed ≤ dates.getD (find_range_indexes sd ed dates).end_index.toNat 0 ∧
          ∀ j : Nat, (find_range_indexes sd ed dates).start_index < (j : Int) →
            (j : Int) < (find_range_indexes sd ed dates).end_index →
            dates.getD j 0 < ed) ∧
      ((find_range_indexes sd ed dates).end_index = -1 →
        ∀ j : Nat, (find_range_indexes sd ed dates).start_index < (j : Int) →
          j < dates.length → dates.getD j 0 < ed) ∧
      data_in_range dates data sd ed
        = pySlice data (find_range_indexes sd ed dates).start_index
            (find_range_indexes sd ed dates).end_index := by
  classical
  obtain ⟨hsr, her, hchain, hsge, hsl, hsp, hege, hel, hep⟩ :=
    find_range_indexes_inv sd ed hse dates
  obtain ⟨j0, hj0, hj0d⟩ := hex
  have hsne : (find_range_indexes sd ed dates).start_index ≠ -1 := by
    intro h
    exact absurd hj0d (not_le.2 (hsp h j0 hj0))
  rcases hsr with h | ⟨h0, hlt⟩
  · exact absurd h hsne
  refine ⟨h0, hlt, hsge hsne, hsl, ?_, hep hsne, rfl⟩
  intro hene
  rcases her with h | ⟨he0, helt⟩
  · exact absurd h hene
  exact ⟨(hchain hene).2, helt, hege hene, hel hene⟩

theorem data_in_range_boundaries_witness :
    0 ≤ (find_range_indexes 6 8 [5, 10]).start_index ∧
      (find_range_indexes 6 8 [5, 10]).start_index
          < (([5, 10] : List Int).length : Int) ∧
      (6 : Int) ≤ ([5, 10] : List Int).getD
          (find_range_indexes 6 8 [5, 10]).start_index.toNat 0 ∧
      (∀ j : Nat, (j : Int) < (find_range_indexes 6 8 [5, 10]).start_index →
        ([5, 10] : List Int).getD j 0 < 6) ∧
      ((find_range_indexes 6 8 [5, 10]).end_index ≠ -1 →
        (find_range_indexes 6 8 [5, 10]).start_index
            < (find_range_indexes 6 8 [5, 10]).end_index ∧
          (find_range_indexes 6 8 [5, 10]).end_index
              < (([5, 10] : List Int).length : Int) ∧
          (8 : Int) ≤ ([5, 10] : List Int).getD
              (find_range_indexes 6 8 [5, 10]).end_index.toNat 0 ∧
          ∀ j : Nat,
            (find_range_indexes 6 8 [5, 10]).start_index < (j : Int) →
            (j : Int) < (find_range_indexes 6 8 [5, 10]).end_index →
            ([5, 10] : List Int).getD j 0 < 8) ∧
      ((find_range_indexes 6 8 [5, 10]).end_index = -1 →
        ∀ j : Nat,
          (find_range_indexes 6 8 [5, 10]).start_index < (j : Int) →
          j < ([5, 10] : List Int).length → ([5, 10] : List Int).getD j 0 < 8) ∧
      data_in_range [5, 10] [(100 : Int), 200] 6 8
        = pySlice [(100 : Int), 200] (find_range_indexes 6 8 [5, 10]).start_index
            (find_range_indexes 6 8 [5, 10]).end_index :=
  data_in_range_boundaries [5, 10] [(100 : Int), 200] 6 8 (by decide)
    (by decide) ⟨1, by decide⟩

/-! ## The six-boundary linear scan of `date_add_to_train_val_test` -/

/-- The six boundary dates passed to the date-splitting functions. -/
structure DateBounds where
  train_start_date : Int
  train_end_date : Int
  val_start_date : Int
  val_end_date : Int
  test_start_date : Int
  test_end_date : Int
deriving Repr, DecidableEq

/-- The six indexes the scan of `date_add_to_train_val_test` maintains,
`-1` meaning "not found yet". -/
structure SplitIdx where
  train_start_index : Int
  train_end_index : Int
  val_start_index : Int
  val_end_index : Int
  test_start_index : Int
  test_end_index : Int
deriving Repr, DecidableEq

/-- One iteration of the scan loop of `date_add_to_train_val_test`
(source lines 139-158): the six-way `if/elif` chain at row `i` holding
date `d`. -/
def date_step (b : DateBounds) (s : SplitIdx) (i : Nat) (d : Int) :
    SplitIdx :=
  if b.train_start_date ≤ d ∧ s.train_start_index = -1 then
    { s with train_start_index := (i : Int) }
  else if b.train_end_date ≤ d ∧ s.train_end_index = -1 then
    { s with train_end_index := (i : Int) }
  else if b.val_start_date ≤ d ∧ s.val_start_index = -1 then
    { s with val_start_index := (i : Int) }
  else if b.val_end_date ≤ d ∧ s.val_end_index = -1 then
    { s with val_end_index := (i : Int) }
  else if b.test_start_date ≤ d ∧ s.test_start_index = -1 then
    { s with test_start_index := (i : Int) }
  else if b.test_end_date ≤ d ∧ s.test_end_index = -1 then
    { s with test_end_index := (i : Int) }
  else s

/-- The scan loop `for i in range(N)` of `date_add_to_train_val_test`. -/
def date_scan (b : DateBounds) : SplitIdx → Nat → List Int → SplitIdx
  | s, _, [] => s
  | s, i, d :: ds => date_scan b (date_step b s i d) (i + 1) ds

/-- The six indexes `date_add_to_train_val_test` computes for a date
column, all initialised to `-1`. -/
def find_split_indexes (b : DateBounds) (dates : List Int) : SplitIdx :=
  date_scan b ⟨-1, -1, -1, -1, -1, -1⟩ 0 dates

/-- The six boundary dates in non-decreasing order. -/
def OrderedBounds (b : DateBounds) : Prop :=
  b.train_start_date ≤ b.train_end_date ∧
    b.train_end_date ≤ b.val_start_date ∧
    b.val_start_date ≤ b.val_end_date ∧
    b.val_end_date ≤ b.test_start_date ∧
    b.test_start_date ≤ b.test_end_date

instance (b : DateBounds) : Decidable (OrderedBounds b) := by
  unfold OrderedBounds; infer_instance

/-- Invariant of the six-boundary scan after processing rows `0..i-1` of
a date column read through `D`, covering the four indexes the slicing
actually uses. -/
structure SplitInv (b : DateBounds) (D : Nat → Int) (i : Nat)
    (s : SplitIdx) : Prop where
  ts_range : s.train_start_index = -1 ∨
    (0 ≤ s.train_start_index ∧ s.train_start_index < (i : Int))
  te_range : s.train_end_index = -1 ∨
    (0 ≤ s.train_end_index ∧ s.train_end_index < (i : Int))
  vs_range : s.val_start_index = -1 ∨
    (0 ≤ s.val_start_index ∧ s.val_start_index < (i : Int))
  ve_range : s.val_end_index = -1 ∨
    (0 ≤ s.val_end_index ∧ s.val_end_index < (i : Int))
  te_chain : s.train_end_index ≠ -1 →
    s.train_start_index ≠ -1 ∧ s.train_start_index < s.train_end_index
  vs_chain : s.val_start_index ≠ -1 →
    s.train_end_index ≠ -1 ∧ s.train_end_index < s.val_start_index
  ve_chain : s.val_end_index ≠ -1 →
    s.val_start_index ≠ -1 ∧ s.val_start_index < s.val_end_index
  ts_ge : s.train_start_index ≠ -1 →
    b.train_start_date ≤ D s.train_start_index.toNat
  vs_ge : s.val_start_index ≠ -1 →
    b.val_start_date ≤ D s.val_start_index.toNat
  te_least : s.train_end_index ≠ -1 → ∀ j : Nat,
    s.train_start_index < (j : Int) → (j : Int) < s.train_end_index →
    D j < b.train_end_date
  te_pending : s.train_start_index ≠ -1 → s.train_end_index = -1 →
    ∀ j : Nat, s.train_start_index < (j : Int) → j < i →
    D j < b.train_end_date

theorem date_step_inv (b : DateBounds) (hb : OrderedBounds b)
    (D : Nat → Int) (i : Nat) (s : SplitIdx)
    (hinv : SplitInv b D i s) :
    SplitInv b D (i + 1) (date_step b s i (D i)) := by
  obtain ⟨hb1, hb2, hb3, hb4, hb5⟩ := hb
  obtain ⟨h1, h2, h3, h4, h5, h6, h7, h8, h9, h10, h11⟩ := hinv
  unfold date_step
  split_ifs with c1 c2 c3 c4 c5 c6
  · -- train_start_index := i
    refine ⟨?_, ?_, ?_, ?_, ?_, ?_, ?_, ?_, ?_, ?_, ?_⟩ <;> dsimp only
    · right; omega
    · rcases h2 with h | h
      · exact Or.inl h
      · right; omega
    · rcases h3 with h | h
      · exact Or.inl h
      · right; omega
    · rcases h4 with h | h
      · exact Or.inl h
      · right; omega
    · intro h; exact absurd c1.2 (h5 h).1
    · exact h6
    · exact h7
    · intro _; simpa using c1.1
    · exact h9
    · intro h; exact absurd c1.2 (h5 h).1
    · intro _ _ j hj1 hj2; omega
  · -- train_end_index := i
    have hts : s.train_start_index ≠ -1 := fun h => c1 ⟨by omega, h⟩
    refine ⟨?_, ?_, ?_, ?_, ?_, ?_, ?_, ?_, ?_, ?_, ?_⟩ <;> dsimp only
    · rcases h1 with h | h
      · exact Or.inl h
      · right; omega
    · right; omega
    · rcases h3 with h | h
      · exact Or.inl h
      · right; omega
    · rcases h4 with h | h
      · exact Or.inl h
      · right; omega
    · intro _
      rcases h1 with h | h
      · exact absurd h hts
      · exact ⟨hts, by omega⟩
    · intro hvs; exact absurd c2.2 (h6 hvs).1
    · exact h7
    · exact h8
    · exact h9
    · intro _ j hj1 hj2
      exact h11 hts c2.2 j hj1 (by omega)
    · intro _ habs; exact absurd habs (by omega)
  · -- val_start_index := i
    have hts : s.train_start_index ≠ -1 := fun h => c1 ⟨by omega, h⟩
    have hte : s.train_end_index ≠ -1 := fun h => c2 ⟨by omega, h⟩
    refine ⟨?_, ?_, ?_, ?_, ?_, ?_, ?_, ?_, ?_, ?_, ?_⟩ <;> dsimp only
    · rcases h1 with h | h
      · exact Or.inl h
      · right; omega
    · rcases h2 with h | h
      · exact Or.inl h
      · right; omega
    · right; omega
    · rcases h4 with h | h
      · exact Or.inl h
      · right; omega
    · exact h5
    · intro _
      rcases h2 with h | h
      · exact absurd h hte
      · exact ⟨hte, by omega⟩
    · intro hve; exact absurd c3.2 (h7 hve).1
    · exact h8
    · intro _; simpa using c3.1
    · exact h10
    · intro _ habs; exact absurd habs hte
  · -- val_end_index := i
    have hts : s.train_start_index ≠ -1 := fun h => c1 ⟨by omega, h⟩
    have hte : s.train_end_index ≠ -1 := fun h => c2 ⟨by omega, h⟩
    have hvs : s.val_start_index ≠ -1 := fun h => c3 ⟨by omega, h⟩
    refine ⟨?_, ?_, ?_, ?_, ?_, ?_, ?_, ?_, ?_, ?_, ?_⟩ <;> dsimp only
    · rcases h1 with h | h
      · exact Or.inl h
      · right; omega
    · rcases h2 with h | h
      · exact Or.inl h
      · right; omega
    · rcases h3 with h | h
      · exact Or.inl h
      · right; omega
    · right; omega
    · exact h5
    · exact h6
    · intro _
      rcases h3 with h | h
      · exact absurd h hvs
      · exact ⟨hvs, by omega⟩
    · exact h8
    · exact h9
    · exact h10
    · intro _ habs; exact absurd habs hte
  · -- test_start_index := i
    have hte : s.train_end_index ≠ -1 := fun h => c2 ⟨by omega, h⟩
    refine ⟨?_, ?_, ?_, ?_, ?_, ?_, ?_, ?_, ?_, ?_, ?_⟩ <;> dsimp only
    · rcases h1 with h | h
      · exact Or.inl h
      · right; omega
    · rcases h2 with h | h
      · exact Or.inl h
      · right; omega
    · rcases h3 with h | h
      · exact Or.inl h
      · right; omega
    · rcases h4 with h | h
      · exact Or.inl h
      · right; omega
    · exact h5
    · exact h6
    · exact h7
    · exact h8
    · exact h9
    · exact h10
    · intro _ habs; exact absurd habs hte
  · -- test_end_index := i
    have hte : s.train_end_index ≠ -1 := fun h => c2 ⟨by omega, h⟩
    refine ⟨?_, ?_, ?_, ?_, ?_, ?_, ?_, ?_, ?_, ?_, ?_⟩ <;> dsimp only
    · rcases h1 with h | h
      · exact Or.inl h
      · right; omega
    · rcases h2 with h | h
      · exact Or.inl h
      · right; omega
    · rcases h3 with h | h
      · exact Or.inl h
      · right; omega
    · rcases h4 with h | h
      · exact Or.inl h
      · right; omega
    · exact h5
    · exact h6
    · exact h7
    · exact h8
    · exact h9
    · exact h10
    · intro _ habs; exact absurd habs hte
  · -- nothing fires
    refine ⟨?_, ?_, ?_, ?_, h5, h6, h7, h8, h9, h10, ?_⟩
    · rcases h1 with h | h
      · exact Or.inl h
      · right; omega
    · rcases h2 with h | h
      · exact Or.inl h
      · right; omega
    · rcases h3 with h | h
      · exact Or.inl h
      · right; omega
    · rcases h4 with h | h
      · exact Or.inl h
      · right; omega
    · intro hts hte j hj1 hj2
      rcases Nat.lt_succ_iff_lt_or_eq.1 hj2 with h | rfl
      · exact h11 hts hte j hj1 h
      · by_contra hge
        push_neg at hge
        exact c2 ⟨hge, hte⟩

theorem date_scan_inv (b : DateBounds) (hb : OrderedBounds b)
    (D : Nat → Int) :
    ∀ (ds : List Int) (i : Nat) (s : SplitIdx),
      SplitInv b D i s →
      (∀ k, k < ds.length → ds.getD k 0 = D (i + k)) →
      SplitInv b D (i + ds.length) (date_scan b s i ds)
  | [], i, s, hinv, _ => by simpa using hinv
  | d :: ds, i, s, hinv, hD => by
      have hd : d = D i := by
        have h0 := hD 0 (by simp)
        simpa using h0
      have hstep := date_step_inv b hb D i s hinv
      rw [← hd] at hstep
      have hrec := date_scan_inv b hb D ds (i + 1) (date_step b s i d) hstep
        (fun k hk => by
          have := hD (k + 1) (by simpa using Nat.succ_lt_succ hk)
          simpa [Nat.add_assoc, Nat.add_comm 1 k] using this)
      have hlen : i + (d :: ds).length = (i + 1) + ds.length := by
        simp [Nat.add_comm, Nat.add_assoc, Nat.add_left_comm]
      rw [hlen]
      exact hrec

theorem find_split_indexes_inv (b : DateBounds) (hb : OrderedBounds b)
    (dates : List Int) :
    SplitInv b (fun j => dates.getD j 0) dates.length
      (find_split_indexes b dates) := by
  have hinit : SplitInv b (fun j => dates.getD j 0) 0
      ⟨-1, -1, -1, -1, -1, -1⟩ := by
    refine ⟨Or.inl rfl, Or.inl rfl, Or.inl rfl, Or.inl rfl,
      ?_, ?_, ?_, ?_, ?_, ?_, ?_⟩
    · intro h; exact absurd rfl h
    · intro h; exact absurd rfl h
    · intro h; exact absurd rfl h
    · intro h; exact absurd rfl h
    · intro h; exact absurd rfl h
    · intro h; exact absurd rfl h
    · intro h; exact absurd rfl h
  have := date_scan_inv b hb (fun j => dates.getD j 0) dates 0
    ⟨-1, -1, -1, -1, -1, -1⟩ hinit (fun k _ => by simp)
  simpa [find_split_indexes] using this

theorem pyResolve_neg_one (n : Nat) : pyResolve n (-1) = n - 1 := by
  unfold pyResolve
  rw [if_pos (by omega)]
  omega

theorem pyResolve_nonneg (n : Nat) (x : Int) (h0 : 0 ≤ x)
    (hn : x < (n : Int)) : pyResolve n x = x.toNat := by
  unfold pyResolve
  rw [if_neg (by omega), min_def]
  split_ifs <;> omega

/-- `date_add_to_train_val_test` from `data_process.py`: scan the date
column for the six boundary indexes, slice the data into
`data[train_start_index:train_end_index]`,
`data[val_start_index:val_end_index]` and `data[val_end_index:]`, window
each slice, and extend the three accumulator lists. -/
def date_add_to_train_val_test (b : DateBounds) (date_data : List Int)
    (data : List α) (train val test : List (List α × List α))
    (x_length t_length : Nat) :
    List (List α × List α) × List (List α × List α) ×
      List (List α × List α) :=
  let s := find_split_indexes b date_data
  let train_to_add := pySlice data s.train_start_index s.train_end_index
  let val_to_add := pySlice data s.val_start_index s.val_end_index
  let test_to_add := pySliceFrom data s.val_end_index
  (train ++ make_x_t_tuple_tensor_pairs_in_place train_to_add x_length t_length,
   val ++ make_x_t_tuple_tensor_pairs_in_place val_to_add x_length t_length,
   test ++ make_x_t_tuple_tensor_pairs_in_place test_to_add x_length t_length)

/-- The index range of the rows `date_add_to_train_val_test` windows
into `train`: `data[train_start_index:train_end_index]`
(source line 161). -/
def train_segment (b : DateBounds) (dates : List Int) (j : Nat) : Prop :=
  inPySlice dates.length (find_split_indexes b dates).train_start_index
    (find_split_indexes b dates).train_end_index j

/-- The index range of the rows `date_add_to_train_val_test` windows
into `val`: `data[val_start_index:val_end_index]` (source line 162). -/
def val_segment (b : DateBounds) (dates : List Int) (j : Nat) : Prop :=
  inPySlice dates.length (find_split_indexes b dates).val_start_index
    (find_split_indexes b dates).val_end_index j

/-- The index range of the rows `date_add_to_train_val_test` windows
into `test`: `data[val_end_index:]` (source line 163). -/
def test_segment (b : DateBounds) (dates : List Int) (j : Nat) : Prop :=
  inPySliceFrom dates.length (find_split_indexes b dates).val_end_index j

instance (b : DateBounds) (dates : List Int) (j : Nat) :
    Decidable (train_segment b dates j) := by
  unfold train_segment; infer_instance

instance (b : DateBounds) (dates : List Int) (j : Nat) :
    Decidable (val_segment b dates j) := by
  unfold val_segment; infer_instance

instance (b : DateBounds) (dates : List Int) (j : Nat) :
    Decidable (test_segment b dates j) := by
  unfold test_segment; infer_instance

set_option linter.unusedVariables false in
/-- C3: with non-decreasingly sorted dates, ordered boundary dates, and
every boundary having some row at or after it, the three row segments
windowed into train, val and test are pairwise disjoint index ranges of
the input array. -/
theorem date_split_segments_disjoint (b : DateBounds) (dates : List Int)
    (hsort : DatesSorted dates) (hord : OrderedBounds b)
    (hex_ts : ∃ j, j < dates.length ∧ b.train_start_date ≤ dates.getD j 0)
    (hex_te : ∃ j, j < dates.length ∧ b.train_end_date ≤ dates.getD j 0)
    (hex_vs : ∃ j, j < dates.length ∧ b.val_start_date ≤ dates.getD j 0)
    (hex_ve : ∃ j, j < dates.length ∧ b.val_end_date ≤ dates.getD j 0)
    (hex_ss : ∃ j, j < dates.length ∧ b.test_start_date ≤ dates.getD j 0)
    (hex_se : ∃ j, j < dates.length ∧ b.test_end_date ≤ dates.getD j 0) :
    ∀ j : Nat,
      ¬(train_segment b dates j ∧ val_segment b dates j) ∧
        ¬(train_segment b dates j ∧ test_segment b dates j) ∧
        ¬(val_segment b dates j ∧ test_segment b dates j) := by
  obtain ⟨h1, h2, h3, h4, h5, h6, h7, _, _, _, _⟩ :=
    find_split_indexes_inv b hord dates
  intro j
  refine ⟨?_, ?_, ?_⟩
  · -- train ∩ val
    rintro ⟨⟨ha1, ha2, ha3⟩, ⟨hc1, hc2, hc3⟩⟩
    rcases h3 with hvs | ⟨hvs0, hvsn⟩
    · rw [hvs, pyResolve_neg_one] at hc1
      rcases h2 with hte | ⟨hte0, hten⟩
      · rw [hte, pyResolve_neg_one] at ha2
        omega
      · rw [pyResolve_nonneg dates.length _ hte0 hten] at ha2
        omega
    · have hvsne : (find_split_indexes b dates).val_start_index ≠ -1 := by
        omega
      obtain ⟨htene, htevs⟩ := h6 hvsne
      rcases h2 with hte | ⟨hte0, hten⟩
      · exact absurd hte htene
      rw [pyResolve_nonneg dates.length _ hte0 hten] at ha2
      rw [pyResolve_nonneg dates.length _ hvs0 hvsn] at hc1
      omega
  · -- train ∩ test
    rintro ⟨⟨ha1, ha2, ha3⟩, ⟨hc1, hc2⟩⟩
    rcases h4 with hve | ⟨hve0, hven⟩
    · rw [hve, pyResolve_neg_one] at hc1
      rcases h2 with hte | ⟨hte0, hten⟩
      · rw [hte, pyResolve_neg_one] at ha2
        omega
      · rw [pyResolve_nonneg dates.length _ hte0 hten] at ha2
        omega
    · have hvene : (find_split_indexes b dates).val_end_index ≠ -1 := by
        omega
      obtain ⟨hvsne, hvsve⟩ := h7 hvene
      obtain ⟨htene, htevs⟩ := h6 hvsne
      rcases h2 with hte | ⟨hte0, hten⟩
      · exact absurd hte htene
      rcases h3 with hvs | ⟨hvs0, hvsn⟩
      · exact absurd hvs hvsne
      rw [pyResolve_nonneg dates.length _ hte0 hten] at ha2
      rw [pyResolve_nonneg dates.length _ hve0 hven] at hc1
      omega
  · -- val ∩ test
    rintro ⟨⟨hc1, hc2, hc3⟩, ⟨hd1, hd2⟩⟩
    omega

theorem date_split_segments_disjoint_witness :
    ¬(train_segment ⟨0, 10, 20, 30, 40, 50⟩ [0, 10, 20, 30, 40, 50] 0 ∧
        val_segment ⟨0, 10, 20, 30, 40, 50⟩ [0, 10, 20, 30, 40, 50] 0) ∧
      ¬(train_segment ⟨0, 10, 20, 30, 40, 50⟩ [0, 10, 20, 30, 40, 50] 0 ∧
        test_segment ⟨0, 10, 20, 30, 40, 50⟩ [0, 10, 20, 30, 40, 50] 0) ∧
      ¬(val_segment ⟨0, 10, 20, 30, 40, 50⟩ [0, 10, 20, 30, 40, 50] 0 ∧
        test_segment ⟨0, 10, 20, 30, 40, 50⟩ [0, 10, 20, 30, 40, 50] 0) :=
  date_split_segments_disjoint ⟨0, 10, 20, 30, 40, 50⟩
    [0, 10, 20, 30, 40, 50] (by decide) (by decide)
    ⟨0, by decide⟩ ⟨1, by decide⟩ ⟨2, by decide⟩ ⟨3, by decide⟩
    ⟨4, by decide⟩ ⟨5, by decide⟩ 0

theorem date_split_dropped_rows_cex :
    DatesSorted [20, 25] ∧
      OrderedBounds ⟨0, 15, 31, 35, 40, 45⟩ ∧
      (15 : Int) ≤ ([20, 25] : List Int).getD 0 0 ∧
      ([20, 25] : List Int).getD 0 0 < 31 ∧
      train_segment ⟨0, 15, 31, 35, 40, 45⟩ [20, 25] 0 := by decide

/-- C9 (amended): provided the scan does find `val_end_index`, a row is
assigned to no segment when its date precedes `train_start_date`, or
lies in `[train_end_date, val_start_date)` and the row is not the one at
`train_start_index` (that single row can be claimed by `train` because
the `elif` chain reserves its iteration for `train_start_index`). -/
theorem date_split_dropped_rows (b : DateBounds) (dates : List Int)
    (hsort : DatesSorted dates) (hord : OrderedBounds b)
    (hve : (find_split_indexes b dates).val_end_index ≠ -1)
    (j : Nat) (hj : j < dates.length)
    (hdrop : dates.getD j 0 < b.train_start_date ∨
      (b.train_end_date ≤ dates.getD j 0 ∧
        dates.getD j 0 < b.val_start_date ∧
        (j : Int) ≠ (find_split_indexes b dates).train_start_index)) :
    ¬train_segment b dates j ∧ ¬val_segment b dates j ∧
      ¬test_segment b dates j := by
  obtain ⟨h1, h2, h3, h4, h5, h6, h7, h8, h9, h10, _⟩ :=
    find_split_indexes_inv b hord dates
  obtain ⟨hvsne, hvsve⟩ := h7 hve
  obtain ⟨htene, htevs⟩ := h6 hvsne
  obtain ⟨htsne, htste⟩ := h5 htene
  rcases h1 with h | ⟨hts0, htsn⟩
  · exact absurd h htsne
  rcases h2 with h | ⟨hte0, hten⟩
  · exact absurd h htene
  rcases h3 with h | ⟨hvs0, hvsn⟩
  · exact absurd h hvsne
  rcases h4 with h | ⟨hve0, hven⟩
  · exact absurd h hve
  have hts_ge := h8 htsne
  have hvs_ge := h9 hvsne
  rcases hdrop with hlt | ⟨hge, hlt, hne⟩
  · -- date before train_start_date: the row precedes train_start_index
    have hjts : (j : Int) <
        (find_split_indexes b dates).train_start_index := by
      by_contra hcon
      push_neg at hcon
      have hmono := hsort.getD_le
        (i := (find_split_indexes b dates).train_start_index.toNat)
        (j := j) (by omega) hj
      omega
    refine ⟨?_, ?_, ?_⟩
    · rintro ⟨m1, m2, m3⟩
      rw [pyResolve_nonneg dates.length _ hts0 htsn] at m1
      omega
    · rintro ⟨m1, m2, m3⟩
      rw [pyResolve_nonneg dates.length _ hvs0 hvsn] at m1
      omega
    · rintro ⟨m1, m2⟩
      rw [pyResolve_nonneg dates.length _ hve0 hven] at m1
      omega
  · -- date in the gap [train_end_date, val_start_date)
    refine ⟨?_, ?_, ?_⟩
    · rintro ⟨m1, m2, m3⟩
      rw [pyResolve_nonneg dates.length _ hts0 htsn] at m1
      rw [pyResolve_nonneg dates.length _ hte0 hten] at m2
      have := h10 htene j (by omega) (by omega)
      omega
    · rintro ⟨m1, m2, m3⟩
      rw [pyResolve_nonneg dates.length _ hvs0 hvsn] at m1
      have hmono := hsort.getD_le
        (i := (find_split_indexes b dates).val_start_index.toNat)
        (j := j) (by omega) hj
      omega
    · rintro ⟨m1, m2⟩
      rw [pyResolve_nonneg dates.length _ hve0 hven] at m1
      have hmono := hsort.getD_le
        (i := (find_split_indexes b dates).val_start_index.toNat)
        (j := j) (by omega) hj
      omega

theorem date_split_dropped_rows_witness :
    ¬train_segment ⟨0, 15, 31, 35, 40, 45⟩ [0, 15, 31, 35, 40, 45] 1 ∧
      ¬val_segment ⟨0, 15, 31, 35, 40, 45⟩ [0, 15, 31, 35, 40, 45] 1 ∧
      ¬test_segment ⟨0, 15, 31, 35, 40, 45⟩ [0, 15, 31, 35, 40, 45] 1 :=
  date_split_dropped_rows ⟨0, 15, 31, 35, 40, 45⟩ [0, 15, 31, 35, 40, 45]
    (by decide) (by decide) (by decide) 1 (by decide)
    (Or.inr ⟨by decide, by decide, by decide⟩)

/-! ## Windows never cross file boundaries -/

theorem make_x_t_of_take_drop (l : List α) (A B xl tl : Nat)
    (p : List α × List α)
    (hp : p ∈ make_x_t_tuple_tensor_pairs_in_place ((l.take B).drop A) xl tl) :
    ∃ i, p.1 = (l.drop i).take xl ∧ p.2 = (l.drop (i + xl)).take tl := by
  rcases (mem_make_x_t_iff _ xl tl p).1 hp with ⟨i, hi, rfl⟩
  have hM : ((l.take B).drop A).length = min B l.length - A := by
    simp [List.length_drop, List.length_take]
  rw [hM] at hi
  refine ⟨A + i, ?_, ?_⟩
  · show (((l.take B).drop A).drop i).take xl = (l.drop (A + i)).take xl
    rw [List.drop_drop, List.drop_take, List.take_take]
    have h2 : min xl (B - (A + i)) = xl := by omega
    rw [h2]
  · show (((l.take B).drop A).drop (i + xl)).take tl
        = (l.drop (A + i + xl)).take tl
    rw [List.drop_drop, List.drop_take, List.take_take]
    have h3 : A + (i + xl) = A + i + xl := by omega
    rw [h3]
    have h2 : min tl (B - (A + i + xl)) = tl := by omega
    rw [h2]

theorem make_x_t_of_drop (l : List α) (A xl tl : Nat) (p : List α × List α)
    (hp : p ∈ make_x_t_tuple_tensor_pairs_in_place (l.drop A) xl tl) :
    ∃ i, p.1 = (l.drop i).take xl ∧ p.2 = (l.drop (i + xl)).take tl := by
  apply make_x_t_of_take_drop l A l.length
  rwa [List.take_length]

/-- One input data file: a date column and the matching rows. -/
structure PriceFile (α : Type) where
  dates : List Int
  rows : List α

/-- `p` is a window of `xl` contiguous rows of file `f` followed
immediately by the next `tl` rows of the same file. -/
def window_of (f : PriceFile α) (xl tl : Nat) (p : List α × List α) : Prop :=
  ∃ i, p.1 = (f.rows.drop i).take xl ∧ p.2 = (f.rows.drop (i + xl)).take tl

theorem date_add_eq (b : DateBounds) (dates : List Int) (data : List α)
    (train val test : List (List α × List α)) (xl tl : Nat) :
    date_add_to_train_val_test b dates data train val test xl tl =
      (train ++ make_x_t_tuple_tensor_pairs_in_place
          (pySlice data (find_split_indexes b dates).train_start_index
            (find_split_indexes b dates).train_end_index) xl tl,
       val ++ make_x_t_tuple_tensor_pairs_in_place
          (pySlice data (find_split_indexes b dates).val_start_index
            (find_split_indexes b dates).val_end_index) xl tl,
       test ++ make_x_t_tuple_tensor_pairs_in_place
          (pySliceFrom data (find_split_indexes b dates).val_end_index)
          xl tl) := rfl

/-- `date_make_train_val_test_data` from `data_process.py`: start from
empty lists and run `date_add_to_train_val_test` over every file of the
directory. -/
def date_make_train_val_test_data (b : DateBounds)
    (files : List (PriceFile α)) (x_length t_length : Nat) :
    List (List α × List α) × List (List α × List α) ×
      List (List α × List α) :=
  files.foldl
    (fun acc f =>
      date_add_to_train_val_test b f.dates f.rows acc.1 acc.2.1 acc.2.2
        x_length t_length)
    ([], [], [])

set_option linter.unusedVariables false in
/-- The helper `add_x_t_data` nested in `data_split_symbol_and_date`
(source lines 306-325).  It accepts `start_date` and `end_date`
parameters but — exactly as in the source — its body passes the
enclosing `train_start_date` and `train_end_date` to
`get_data_within_date_range` for every file. -/
def add_x_t_data (files : List (PriceFile α)) (x_length t_length : Nat)
    (start_date end_date : Int) (train_start_date train_end_date : Int)
    (add_to_list : List (List α × List α)) : List (List α × List α) :=
  files.foldl
    (fun acc f =>
      acc ++ get_data_within_date_range f.dates f.rows x_length t_length
        train_start_date train_end_date)
    add_to_list

/-- `data_split_symbol_and_date` from `data_process.py`: build the
train, val and test lists by calling `add_x_t_data` on the three file
lists with the respective date ranges. -/
def data_split_symbol_and_date (train_files val_files test_files :
    List (PriceFile α)) (b : DateBounds) (x_length t_length : Nat) :
    List (List α × List α) × List (List α × List α) ×
      List (List α × List α) :=
  (add_x_t_data train_files x_length t_length b.train_start_date
      b.train_end_date b.train_start_date b.train_end_date [],
   add_x_t_data val_files x_length t_length b.val_start_date
      b.val_end_date b.train_start_date b.train_end_date [],
   add_x_t_data test_files x_length t_length b.test_start_date
      b.test_end_date b.train_start_date b.train_end_date [])

theorem date_make_fold_spec (b : DateBounds) (xl tl : Nat) :
    ∀ (files : List (PriceFile α))
      (acc : List (List α × List α) × List (List α × List α) ×
        List (List α × List α)),
      (∀ p ∈ (files.foldl
          (fun acc f =>
            date_add_to_train_val_test b f.dates f.rows acc.1 acc.2.1
              acc.2.2 xl tl) acc).1,
        p ∈ acc.1 ∨ ∃ f ∈ files, window_of f xl tl p) ∧
      (∀ p ∈ (files.foldl
          (fun acc f =>
            date_add_to_train_val_test b f.dates f.rows acc.1 acc.2.1
              acc.2.2 xl tl) acc).2.1,
        p ∈ acc.2.1 ∨ ∃ f ∈ files, window_of f xl tl p) ∧
      (∀ p ∈ (files.foldl
          (fun acc f =>
            date_add_to_train_val_test b f.dates f.rows acc.1 acc.2.1
              acc.2.2 xl tl) acc).2.2,
        p ∈ acc.2.2 ∨ ∃ f ∈ files, window_of f xl tl p)
  | [], acc => by
      refine ⟨?_, ?_, ?_⟩ <;> intro p hp <;> exact Or.inl hp
  | f :: fs, acc => by
      have ih := date_make_fold_spec b xl tl fs
        (date_add_to_train_val_test b f.dates f.rows acc.1 acc.2.1 acc.2.2
          xl tl)
      refine ⟨?_, ?_, ?_⟩ <;> intro p hp
      · rcases (ih.1 p (by simpa using hp)) with hmem | ⟨g, hg, hw⟩
        · rw [date_add_eq] at hmem
          rcases List.mem_append.1 hmem with h | h
          · exact Or.inl h
          · refine Or.inr ⟨f, by simp, ?_⟩
            exact make_x_t_of_take_drop f.rows _ _ xl tl p h
        · exact Or.inr ⟨g, by simp [hg], hw⟩
      · rcases (ih.2.1 p (by simpa using hp)) with hmem | ⟨g, hg, hw⟩
        · rw [date_add_eq] at hmem
          rcases List.mem_append.1 hmem with h | h
          · exact Or.inl h
          · refine Or.inr ⟨f, by simp, ?_⟩
            exact make_x_t_of_take_drop f.rows _ _ xl tl p h
        · exact Or.inr ⟨g, by simp [hg], hw⟩
      · rcases (ih.2.2 p (by simpa using hp)) with hmem | ⟨g, hg, hw⟩
        · rw [date_add_eq] at hmem
          rcases List.mem_append.1 hmem with h | h
          · exact Or.inl h
          · refine Or.inr ⟨f, by simp, ?_⟩
            exact make_x_t_of_drop f.rows _ xl tl p h
        · exact Or.inr ⟨g, by simp [hg], hw⟩

theorem add_x_t_data_fold_spec (xl tl : Nat) (sd ed tsd ted : Int) :
    ∀ (files : List (PriceFile α)) (acc : List (List α × List α)),
      ∀ p ∈ add_x_t_data files xl tl sd ed tsd ted acc,
        p ∈ acc ∨ ∃ f ∈ files, window_of f xl tl p
  | [], acc => fun p hp => Or.inl hp
  | f :: fs, acc => by
      intro p hp
      have ih := add_x_t_data_fold_spec xl tl sd ed tsd ted fs
        (acc ++ get_data_within_date_range f.dates f.rows xl tl tsd ted)
        p (by simpa [add_x_t_data] using hp)
      rcases ih with hmem | ⟨g, hg, hw⟩
      · rcases List.mem_append.1 hmem with h | h
        · exact Or.inl h
        · refine Or.inr ⟨f, by simp, ?_⟩
          exact make_x_t_of_take_drop f.rows _ _ xl tl p h
      · exact Or.inr ⟨g, by simp [hg], hw⟩

/-- C5: every pair placed in any of the three lists by
`date_make_train_val_test_data`, and by `data_split_symbol_and_date`, is
a window over contiguous rows of a single input file; no window spans
two files, because windowing happens per file before concatenation. -/
theorem windows_within_single_file (b : DateBounds)
    (files tf vf sf : List (PriceFile α)) (xl tl : Nat) :
    (∀ p ∈ (date_make_train_val_test_data b files xl tl).1,
        ∃ f ∈ files, window_of f xl tl p) ∧
      (∀ p ∈ (date_make_train_val_test_data b files xl tl).2.1,
        ∃ f ∈ files, window_of f xl tl p) ∧
      (∀ p ∈ (date_make_train_val_test_data b files xl tl).2.2,
        ∃ f ∈ files, window_of f xl tl p) ∧
      (∀ p ∈ (data_split_symbol_and_date tf vf sf b xl tl).1,
        ∃ f ∈ tf, window_of f xl tl p) ∧
      (∀ p ∈ (data_split_symbol_and_date tf vf sf b xl tl).2.1,
        ∃ f ∈ vf, window_of f xl tl p) ∧
      (∀ p ∈ (data_split_symbol_and_date tf vf sf b xl tl).2.2,
        ∃ f ∈ sf, window_of f xl tl p) := by
  obtain ⟨hm1, hm2, hm3⟩ := date_make_fold_spec b xl tl files ([], [], [])
  refine ⟨?_, ?_, ?_, ?_, ?_, ?_⟩
  · intro p hp
    rcases hm1 p hp with h | h
    · simp at h
    · exact h
  · intro p hp
    rcases hm2 p hp with h | h
    · simp at h
    · exact h
  · intro p hp
    rcases hm3 p hp with h | h
    · simp at h
    · exact h
  · intro p hp
    rcases add_x_t_data_fold_spec xl tl b.train_start_date b.train_end_date
        b.train_start_date b.train_end_date tf [] p hp with h | h
    · simp at h
    · exact h
  · intro p hp
    rcases add_x_t_data_fold_spec xl tl b.val_start_date b.val_end_date
        b.train_start_date b.train_end_date vf [] p hp with h | h
    · simp at h
    · exact h
  · intro p hp
    rcases add_x_t_data_fold_spec xl tl b.test_start_date b.test_end_date
        b.train_start_date b.train_end_date sf [] p hp with h | h
    · simp at h
    · exact h

/-- C1: evaluating `data_split_symbol_and_date` at a concrete input.
The single val file has all dates in `[0, 3]`, far before the val range
`[200, 300)`, yet the returned val list is the non-empty
`[([10], [20])]`: `add_x_t_data` filtered the val files by the TRAIN
range `[0, 100)`, because its body ignores its `start_date` and
`end_date` parameters. -/
theorem data_split_val_filter_bug :
    (data_split_symbol_and_date ([] : List (PriceFile Int))
          [⟨[0, 1, 2, 3], [10, 20, 30, 40]⟩] []
          ⟨0, 100, 200, 300, 400, 500⟩ 1 1).2.1 = [([10], [20])] ∧
      ∀ d ∈ ([0, 1, 2, 3] : List Int), d < 200 := by decide

/-! ## `split_etfs` -/

/-- `split_etfs` from `data_process.py`.  The global `random` generator
is modelled by explicit state `g : σ`; `random.seed` replaces the state
with `seedFn random_seed` and `random.shuffle` is an abstract
state-dependent permutation `shuffleFn`.  The slice bounds are all
non-negative and at most `len(etfs)`, where Python's clamping agrees
with `List.take`/`List.drop`. -/
def split_etfs (seedFn : Nat → σ) (shuffleFn : σ → List α → List α × σ)
    (g : σ) (etfs : List α) (use_seed : Bool) (random_seed : Nat) :
    (List α × List α × List α) × σ :=
  let split := etfs.length / 10
  let train_start := 4 * split
  let val_start := 2 * split
  let val_end := train_start
  let test_end := val_start
  let sh := if use_seed then shuffleFn (seedFn random_seed) etfs
    else (etfs, g)
  ((sh.1.take test_end, (sh.1.take val_end).drop val_start,
    sh.1.drop train_start), sh.2)

/-- C6: `split_etfs` returns `(test, val, train)` with
`len(test) = len(val) = 2*(n // 10)` and `len(train) = n - 4*(n // 10)`,
and (names being distinct) every input name lands in exactly one of the
three lists. -/
theorem split_etfs_partition (seedFn : Nat → σ)
    (shuffleFn : σ → List α → List α × σ) [DecidableEq α] (g : σ)
    (etfs : List α) (use_seed : Bool) (random_seed : Nat)
    (hshuffle : ∀ (s : σ) (l : List α), ((shuffleFn s l).1).Perm l)
    (hnd : etfs.Nodup) :
    (split_etfs seedFn shuffleFn g etfs use_seed random_seed).1.1.length
        = 2 * (etfs.length / 10) ∧
      (split_etfs seedFn shuffleFn g etfs use_seed random_seed).1.2.1.length
        = 2 * (etfs.length / 10) ∧
      (split_etfs seedFn shuffleFn g etfs use_seed random_seed).1.2.2.length
        = etfs.length - 4 * (etfs.length / 10) ∧
      ∀ a ∈ etfs,
        (a ∈ (split_etfs seedFn shuffleFn g etfs use_seed random_seed).1.1 ∧
          a ∉ (split_etfs seedFn shuffleFn g etfs use_seed random_seed).1.2.1 ∧
          a ∉ (split_etfs seedFn shuffleFn g etfs use_seed random_seed).1.2.2) ∨
        (a ∉ (split_etfs seedFn shuffleFn g etfs use_seed random_seed).1.1 ∧
          a ∈ (split_etfs seedFn shuffleFn g etfs use_seed random_seed).1.2.1 ∧
          a ∉ (split_etfs seedFn shuffleFn g etfs use_seed random_seed).1.2.2) ∨
        (a ∉ (split_etfs seedFn shuffleFn g etfs use_seed random_seed).1.1 ∧
          a ∉ (split_etfs seedFn shuffleFn g etfs use_seed random_seed).1.2.1 ∧
          a ∈ (split_etfs seedFn shuffleFn g etfs use_seed random_seed).1.2.2) := by
  have hperm : (if use_seed then shuffleFn (seedFn random_seed) etfs
      else (etfs, g)).1.Perm etfs := by
    cases use_seed
    · simp
    · simpa using hshuffle (seedFn random_seed) etfs
  set sh := (if use_seed then shuffleFn (seedFn random_seed) etfs
      else (etfs, g)).1 with hsh
  have hres : (split_etfs seedFn shuffleFn g etfs use_seed random_seed).1 =
      (sh.take (2 * (etfs.length / 10)),
       (sh.take (4 * (etfs.length / 10))).drop (2 * (etfs.length / 10)),
       sh.drop (4 * (etfs.length / 10))) := rfl
  have hlen : sh.length = etfs.length := hperm.length_eq
  have hdec : sh = sh.take (2 * (etfs.length / 10)) ++
      ((sh.take (4 * (etfs.length / 10))).drop (2 * (etfs.length / 10)) ++
        sh.drop (4 * (etfs.length / 10))) := by
    conv_lhs => rw [← List.take_append_drop (4 * (etfs.length / 10)) sh]
    rw [← List.append_assoc]
    congr 1
    conv_lhs => rw [← List.take_append_drop (2 * (etfs.length / 10))
      (sh.take (4 * (etfs.length / 10)))]
    congr 1
    rw [List.take_take]
    congr 1
    omega
  rw [hres]
  dsimp only
  refine ⟨?_, ?_, ?_, ?_⟩
  · simp only [List.length_take]
    omega
  · simp only [List.length_drop, List.length_take]
    omega
  · simp only [List.length_drop]
    omega
  · intro a ha
    have hcount : (sh.take (2 * (etfs.length / 10))).count a +
        (((sh.take (4 * (etfs.length / 10))).drop
            (2 * (etfs.length / 10))).count a +
          (sh.drop (4 * (etfs.length / 10))).count a) = 1 := by
      have h1 : sh.count a = etfs.count a := hperm.count_eq a
      have h2 : etfs.count a = 1 := List.count_eq_one_of_mem hnd ha
      calc (sh.take (2 * (etfs.length / 10))).count a +
            (((sh.take (4 * (etfs.length / 10))).drop
                (2 * (etfs.length / 10))).count a +
              (sh.drop (4 * (etfs.length / 10))).count a)
          = sh.count a := by
            conv_rhs => rw [hdec]
            simp [List.count_append]
        _ = 1 := by rw [h1, h2]
    by_cases h1 : a ∈ sh.take (2 * (etfs.length / 10))
    · left
      have hc1 : 0 < (sh.take (2 * (etfs.length / 10))).count a :=
        List.count_pos_iff.2 h1
      refine ⟨h1, ?_, ?_⟩
      · intro hmem
        have := List.count_pos_iff.2 hmem
        omega
      · intro hmem
        have := List.count_pos_iff.2 hmem
        omega
    · by_cases h2 : a ∈ (sh.take (4 * (etfs.length / 10))).drop
          (2 * (etfs.length / 10))
      · right; left
        have hc2 : 0 < ((sh.take (4 * (etfs.length / 10))).drop
            (2 * (etfs.length / 10))).count a :=
          List.count_pos_iff.2 h2
        refine ⟨h1, h2, ?_⟩
        intro hmem
        have := List.count_pos_iff.2 hmem
        omega
      · right; right
        refine ⟨h1, h2, ?_⟩
        have hc1 : (sh.take (2 * (etfs.length / 10))).count a = 0 :=
          Nat.eq_zero_of_not_pos
            (fun h => h1 (List.count_pos_iff.1 h))
        have hc2 : ((sh.take (4 * (etfs.length / 10))).drop
            (2 * (etfs.length / 10))).count a = 0 :=
          Nat.eq_zero_of_not_pos
            (fun h => h2 (List.count_pos_iff.1 h))
        apply List.count_pos_iff.1
        omega

/-- Eleven distinct ETF file names, for evaluating `split_etfs`. -/
def etf_names_example : List Nat := [1, 2, 3, 4, 5, 6, 7, 8, 9, 10, 11]

theorem split_etfs_partition_witness :
    (split_etfs (fun _ : Nat => ())
          (fun (s : Unit) (l : List Nat) => (l.reverse, s)) ()
          etf_names_example true 42).1.1.length
        = 2 * (etf_names_example.length / 10) ∧
      (split_etfs (fun _ : Nat => ())
          (fun (s : Unit) (l : List Nat) => (l.reverse, s)) ()
          etf_names_example true 42).1.2.1.length
        = 2 * (etf_names_example.length / 10) ∧
      (split_etfs (fun _ : Nat => ())
          (fun (s : Unit) (l : List Nat) => (l.reverse, s)) ()
          etf_names_example true 42).1.2.2.length
        = etf_names_example.length - 4 * (etf_names_example.length / 10) ∧
      ∀ a ∈ etf_names_example,
        (a ∈ (split_etfs (fun _ : Nat => ())
              (fun (s : Unit) (l : List Nat) => (l.reverse, s)) ()
              etf_names_example true 42).1.1 ∧
          a ∉ (split_etfs (fun _ : Nat => ())
              (fun (s : Unit) (l : List Nat) => (l.reverse, s)) ()
              etf_names_example true 42).1.2.1 ∧
          a ∉ (split_etfs (fun _ : Nat => ())
              (fun (s : Unit) (l : List Nat) => (l.reverse, s)) ()
              etf_names_example true 42).1.2.2) ∨
        (a ∉ (split_etfs (fun _ : Nat => ())
              (fun (s : Unit) (l : List Nat) => (l.reverse, s)) ()
              etf_names_example true 42).1.1 ∧
          a ∈ (split_etfs (fun _ : Nat => ())
              (fun (s : Unit) (l : List Nat) => (l.reverse, s)) ()
              etf_names_example true 42).1.2.1 ∧
          a ∉ (split_etfs (fun _ : Nat => ())
              (fun (s : Unit) (l : List Nat) => (l.reverse, s)) ()
              etf_names_example true 42).1.2.2) ∨
        (a ∉ (split_etfs (fun _ : Nat => ())
              (fun (s : Unit) (l : List Nat) => (l.reverse, s)) ()
              etf_names_example true 42).1.1 ∧
          a ∉ (split_etfs (fun _ : Nat => ())
              (fun (s : Unit) (l : List Nat) => (l.reverse, s)) ()
              etf_names_example true 42).1.2.1 ∧
          a ∈ (split_etfs (fun _ : Nat => ())
              (fun (s : Unit) (l : List Nat) => (l.reverse, s)) ()
              etf_names_example true 42).1.2.2) :=
  split_etfs_partition (fun _ : Nat => ())
    (fun (s : Unit) (l : List Nat) => (l.reverse, s)) ()
    etf_names_example true 42 (fun _ l => List.reverse_perm l) (by decide)

/-! ## `augment` -/

/-- The loop `for i in range(num_new_examples)` of `augment`: each
iteration draws `index = randint(0, N-1)` from the generator state,
reads `data[index]` from the CURRENT list, and appends the augmented
point.  `N` is the length captured before the loop; `d0` is the junk
value `getD` returns out of range (never reached when draws stay below
`N`). -/
def augment_loop (randintFn : σ → Nat → Nat → Nat × σ)
    (augment_func : α → α) (d0 : α) (N : Nat) :
    σ → List α → Nat → List α × σ
  | g, cur, 0 => (cur, g)
  | g, cur, Nat.succ k =>
      augment_loop randintFn augment_func d0 N (randintFn g 0 (N - 1)).2
        (cur ++ [augment_func (cur.getD (randintFn g 0 (N - 1)).1 d0)]) k

set_option linter.unusedVariables false in
/-- `augment` from `data_process.py`: compute
`num_new_examples = floor(augment_proportion * N)`, reseed the global
generator, and run the append loop.  The incoming state `g` is
discarded by the reseed, exactly as `random.seed` discards the global
generator state.  The proportion is modelled as an exact rational. -/
def augment (randintFn : σ → Nat → Nat → Nat × σ) (seedFn : Nat → σ)
    (g : σ) (data : List α) (augment_func : α → α)
    (augment_proportion : ℚ) (random_seed : Nat) (d0 : α) :
    List α × σ :=
  let N := data.length
  let num_new_examples := (⌊augment_proportion * N⌋).toNat
  augment_loop randintFn augment_func d0 N (seedFn random_seed) data
    num_new_examples

theorem getD_eq_of_take_eq {l₁ l₂ : List α} (N : Nat)
    (h : l₁.take N = l₂.take N) {j : Nat} (hj : j < N) (d : α) :
    l₁.getD j d = l₂.getD j d := by
  have h1 : l₁[j]? = l₂[j]? := by
    have h2 := congrArg (fun l => l[j]?) h
    simpa [List.getElem?_take, hj] using h2
  simp [List.getD_eq_getElem?_getD, h1]

theorem augment_loop_spec (rf : σ → Nat → Nat → Nat × σ) (f : α → α)
    (d0 : α) (N : Nat) (data : List α)
    (hidx : ∀ g : σ, (rf g 0 (N - 1)).1 < N) :
    ∀ (n : Nat) (g : σ) (cur : List α),
      N ≤ cur.length → cur.take N = data.take N →
      ∃ extra : List α,
        (augment_loop rf f d0 N g cur n).1 = cur ++ extra ∧
          extra.length = n ∧
          ∀ e ∈ extra, ∃ j, j < N ∧ e = f (data.getD j d0)
  | 0, _, cur, _, _ => ⟨[], by simp [augment_loop], rfl, by simp⟩
  | Nat.succ k, g, cur, hN, htake => by
      have hj : (rf g 0 (N - 1)).1 < N := hidx g
      have hgetD : cur.getD (rf g 0 (N - 1)).1 d0
          = data.getD (rf g 0 (N - 1)).1 d0 :=
        getD_eq_of_take_eq N htake hj d0
      have hN' : N ≤ (cur ++ [f (cur.getD (rf g 0 (N - 1)).1 d0)]).length := by
        simp; omega
      have htake' : (cur ++ [f (cur.getD (rf g 0 (N - 1)).1 d0)]).take N
          = data.take N := by
        rw [List.take_append_of_le_length hN]
        exact htake
      obtain ⟨extra, he1, he2, he3⟩ := augment_loop_spec rf f d0 N data hidx
        k (rf g 0 (N - 1)).2 (cur ++ [f (cur.getD (rf g 0 (N - 1)).1 d0)])
        hN' htake'
      refine ⟨f (data.getD (rf g 0 (N - 1)).1 d0) :: extra, ?_, ?_, ?_⟩
      · show (augment_loop rf f d0 N (rf g 0 (N - 1)).2
            (cur ++ [f (cur.getD (rf g 0 (N - 1)).1 d0)]) k).1 = _
        rw [he1, hgetD, List.append_assoc]
        rfl
      · simp [he2]
      · intro e he
        rcases List.mem_cons.1 he with rfl | hmem
        · exact ⟨(rf g 0 (N - 1)).1, hj, rfl⟩
        · exact he3 e hmem

/-- C7: `augment` only appends.  With a non-negative proportion `p` and
`randint` honouring its bounds, the result has length
`N + floor(p * N)`, its first `N` elements are the input unchanged and
in order, and every appended element is `augment_func` of one of the
ORIGINAL first `N` elements (the drawn index is at most `N - 1`, so a
previously appended element is never augmented). -/
theorem augment_appends_only (rf : σ → Nat → Nat → Nat × σ)
    (seedFn : Nat → σ) (g : σ) (data : List α) (f : α → α) (p : ℚ)
    (random_seed : Nat) (d0 : α) (hp : 0 ≤ p)
    (hrf : ∀ (g' : σ) (lo hi : Nat), lo ≤ hi →
      lo ≤ (rf g' lo hi).1 ∧ (rf g' lo hi).1 ≤ hi) :
    ((augment rf seedFn g data f p random_seed d0).1.length : Int)
        = data.length + ⌊p * data.length⌋ ∧
      (augment rf seedFn g data f p random_seed d0).1.take data.length
        = data ∧
      ∀ e ∈ (augment rf seedFn g data f p random_seed d0).1.drop
          data.length,
        ∃ j, j < data.length ∧ e = f (data.getD j d0) := by
  have hfl : 0 ≤ ⌊p * (data.length : ℚ)⌋ := by
    apply Int.floor_nonneg.2
    positivity
  rcases Nat.eq_zero_or_pos data.length with h0 | hpos
  · have hdata : data = [] := List.length_eq_zero.1 h0
    subst hdata
    refine ⟨?_, by simp [augment, augment_loop], ?_⟩
    · simp [augment, augment_loop]
    · intro e he
      simp [augment, augment_loop] at he
  · have hidx : ∀ g' : σ, (rf g' 0 (data.length - 1)).1 < data.length := by
      intro g'
      have := (hrf g' 0 (data.length - 1) (by omega)).2
      omega
    obtain ⟨extra, he1, he2, he3⟩ := augment_loop_spec rf f d0 data.length
      data hidx (⌊p * (data.length : ℚ)⌋).toNat (seedFn random_seed) data
      le_rfl rfl
    have hres : (augment rf seedFn g data f p random_seed d0).1
        = data ++ extra := he1
    rw [hres]
    refine ⟨?_, ?_, ?_⟩
    · simp only [List.length_append, he2]
      push_cast
      omega
    · exact List.take_left data extra
    · intro e he
      rw [List.drop_left] at he
      exact he3 e he

theorem augment_appends_only_witness :
    ((augment (fun (g : Nat) (lo _ : Nat) => (lo, g)) id 0
          ([5, 6] : List Int) (fun x => x + 1) (1 / 2) 42 0).1.length : Int)
        = ([5, 6] : List Int).length
            + ⌊(1 / 2 : ℚ) * (([5, 6] : List Int).length : ℚ)⌋ ∧
      (augment (fun (g : Nat) (lo _ : Nat) => (lo, g)) id 0
          ([5, 6] : List Int) (fun x => x + 1) (1 / 2) 42 0).1.take
          ([5, 6] : List Int).length = [5, 6] ∧
      ∀ e ∈ (augment (fun (g : Nat) (lo _ : Nat) => (lo, g)) id 0
          ([5, 6] : List Int) (fun x => x + 1) (1 / 2) 42 0).1.drop
          ([5, 6] : List Int).length,
        ∃ j, j < ([5, 6] : List Int).length ∧
          e = ([5, 6] : List Int).getD j 0 + 1 :=
  augment_appends_only (fun (g : Nat) (lo _ : Nat) => (lo, g)) id 0
    [5, 6] (fun x => x + 1) (1 / 2) 42 0 (by norm_num)
    (fun g' lo hi h => ⟨le_refl lo, h⟩)

/-- C10: reseeding makes the randomised operations independent of the
incoming global generator state: with `use_seed=True` and equal seeds
and inputs, `split_etfs` returns the same triple, and `augment` draws
the same index sequence and returns the same list, whatever the prior
states `g1`, `g2` were — both calls overwrite the state with
`seedFn random_seed` before drawing. -/
theorem reseed_determinism (seedFn : Nat → σ)
    (shuffleFn : σ → List α → List α × σ)
    (randintFn : σ → Nat → Nat → Nat × σ) (g1 g2 : σ) (etfs : List α)
    (random_seed : Nat) (data : List β) (f : β → β) (p : ℚ) (d0 : β) :
    (split_etfs seedFn shuffleFn g1 etfs true random_seed).1
        = (split_etfs seedFn shuffleFn g2 etfs true random_seed).1 ∧
      (augment randintFn seedFn g1 data f p random_seed d0).1
        = (augment randintFn seedFn g2 data f p random_seed d0).1 :=
  ⟨rfl, rfl⟩

end StockPredictor
